import Mathlib

/-!
# Verification of the rate-governed Kafka publish-and-record pipeline

Shallow embedding of `opl/post_kafka_times.py`: the `PostKafkaTimes`
worker (message building, submission, success/error callbacks, the
per-second rate throttle) and the `post_kafka_times` orchestrator
(thread pool, `as_completed` inspection, `flush`, `commit`).

Conventions of the embedding:
* Python strings are `String`; `bytes` are `List Nat` (byte values);
  `str.encode("UTF-8")` is `utf8Encode`.
* The config dict of hook functions is the structure `Config`; the
  optional `func_return_message_id` key is an `Option` field.
* Wall-clock integer seconds (`int(time.perf_counter())`) are `Nat`;
  `datetime.datetime.utcnow()` timestamps are abstract `Nat` instants.
* The asynchronous broker is modelled by one acknowledgment outcome per
  submission (the Kafka contract: at most one callback per send).
-/

namespace OPL

/-- UTF-8 encoding of one Unicode code point (the byte sequence Python's
`str.encode("UTF-8")` produces for that character). -/
def charUtf8 (c : Char) : List Nat :=
  let n := c.toNat
  if n < 0x80 then [n]
  else if n < 0x800 then
    [0xC0 + n / 64, 0x80 + n % 64]
  else if n < 0x10000 then
    [0xE0 + n / 4096, 0x80 + (n / 64) % 64, 0x80 + n % 64]
  else
    [0xF0 + n / 262144, 0x80 + (n / 4096) % 64, 0x80 + (n / 64) % 64, 0x80 + n % 64]

/-- Model of Python `s.encode("UTF-8")`: the concatenated UTF-8 bytes of
the characters of `s`. -/
def utf8Encode (s : String) : List Nat :=
  (s.data.map charUtf8).flatten

/-- The config dict consumed by `PostKafkaTimes` (the keys asserted at the
start of `post_kafka_times`, lines 259-264, plus the optional
`func_return_message_id` looked up at line 174).  `Args` is the parsed
argparse namespace, `Payload` the structured message value produced by the
generator.  `func_return_generator` models the generator construction at
line 143: calling it yields the finite sequence of `(message_id, message)`
pairs the fresh generator will produce. -/
structure Config (Args Payload : Type) where
  func_return_generator : Args → List (String × Payload)
  func_return_message_id : Option (Args → String → Payload → String)
  func_return_message_payload : Args → String → Payload → String
  func_return_message_key : Args → String → Payload → Option String
  func_return_message_headers : Args → String → Payload → List (String × String)

/-- The `send_params` dict built in `PostKafkaTimes.work` (lines 183-194):
`value` is mandatory bytes, `key` optional bytes, `headers` an ordered
list of `(name, bytes)` pairs. -/
structure SendParams where
  value : List Nat
  key : Option (List Nat)
  headers : List (String × List Nat)
deriving DecidableEq

/-- Message-id resolution (lines 173-177): if `func_return_message_id` is
in the config the custom id is used, otherwise the generator-provided id. -/
def resolveId {A P : Type} (cfg : Config A P) (args : A) (mid : String) (msg : P) : String :=
  match cfg.func_return_message_id with
  | some f => f args mid msg
  | none => mid

/-- Building of `send_params` for one message (lines 179-194): the payload
hook's string is UTF-8 encoded into `value`; the key hook's result, when
not `None`, is UTF-8 encoded into `key`; each header value is UTF-8
encoded, names and order preserved. -/
def buildSendParams {A P : Type} (cfg : Config A P) (args : A) (mid : String) (msg : P) :
    SendParams where
  value := utf8Encode (cfg.func_return_message_payload args mid msg)
  key := (cfg.func_return_message_key args mid msg).map utf8Encode
  headers := (cfg.func_return_message_headers args mid msg).map
    (fun hk => (hk.1, utf8Encode hk.2))

/-- The sequence of `(resolved message_id, send_params)` submissions one
worker performs while draining a generator yielding `gen`
(the loop of `PostKafkaTimes.work`, lines 172-202, with
`show_processed_messages` unset). -/
def submissions {A P : Type} (cfg : Config A P) (args : A) (gen : List (String × P)) :
    List (String × SendParams) :=
  gen.map (fun p =>
    (resolveId cfg args p.1 p.2, buildSendParams cfg args (resolveId cfg args p.1 p.2) p.2))

/-- One worker thread (`produce_thread`, lines 269-271): it constructs a
fresh `PostKafkaTimes`, whose `__init__` (lines 142-143) calls
`config["func_return_generator"](args)` to build its own generator, and
then drains it. -/
def produce_thread {A P : Type} (cfg : Config A P) (args : A) : List (String × SendParams) :=
  submissions cfg args (cfg.func_return_generator args)

/-- All submissions of a run with `W` producer threads (lines 335-341):
each of the `W` submitted tasks runs `produce_thread` on the same shared
`args` and `config`. -/
def allSubmissions {A P : Type} : Nat → Config A P → A → List (String × SendParams)
  | 0, _, _ => []
  | W + 1, cfg, args => produce_thread cfg args ++ allSubmissions W cfg args

/-! ## Acknowledgment callbacks and the delivery ledger -/

/-- Outcome of one asynchronous send: the broker fires either the success
callback or the error callback for it, at most once. -/
inductive AckResult where
  | success
  | error
deriving DecidableEq

/-- Model of `handle_send_success` (lines 156-157): appends
`(message_id, dt_now())` to the ledger (`save_here.add`).  The `Nat`
argument `now` is the value of `dt_now()` when the callback fires. -/
def handle_send_success (ledger : List (String × Nat)) (message_id : String) (now : Nat) :
    List (String × Nat) :=
  ledger ++ [(message_id, now)]

/-- Model of `handle_send_error` (lines 159-160): logs the failure and returns; the
ledger is untouched, the message is neither recorded nor resent. -/
def handle_send_error (ledger : List (String × Nat)) (message_id : String) :
    List (String × Nat) :=
  ledger

/-- One acknowledgment event: the resolved message id of the submission,
the outcome, and the `dt_now()` instant at which the callback runs. -/
def AckEvent : Type := String × AckResult × Nat

/-- Dispatch of one acknowledgment to the registered callback
(lines 201-202: `add_callback(handle_send_success, message_id=...)`,
`add_errback(handle_send_error, message_id=...)`). -/
def applyAck (ledger : List (String × Nat)) (ev : AckEvent) : List (String × Nat) :=
  match ev.2.1 with
  | AckResult.success => handle_send_success ledger ev.1 ev.2.2
  | AckResult.error => handle_send_error ledger ev.1

/-- Ledger contents after a sequence of acknowledgment events has been
dispatched, starting from the empty ledger. -/
def ledgerAfter (events : List AckEvent) : List (String × Nat) :=
  events.foldl applyAck []

/-! ## The rate throttle (lines 162-216)

The loop tail of `PostKafkaTimes.work` after each send only inspects
`int(time.perf_counter())`; the embedding therefore records, per
iteration, the integer second `t` observed at the post-send check and the
integer second `w` at which `wait_for_next_second` returned whenever the
wait was entered. -/

/-- The throttle state of `work`: `this_second` (the second the counter
refers to) and `in_second` (messages counted in it), lines 169-170. -/
structure ThrottleState where
  this_second : Nat
  in_second : Nat
deriving DecidableEq

/-- Whether the post-send check at lines 204-206 enters
`wait_for_next_second`: the observed second still equals `this_second`
and the incremented counter reaches the target rate. -/
def waitFires (rate : Nat) (st : ThrottleState) (t : Nat) : Bool :=
  t == st.this_second && st.in_second + 1 == rate

/-- The throttle update after one send (lines 204-216): on the same
second the counter is incremented and, on reaching `rate`, the worker
waits for the next second `w` and resets; on a new second the window is
reset (with a rate-mismatch warning) unless `rate` is `0` or the counter
happens to equal `rate`. -/
def throttleStep (rate : Nat) (st : ThrottleState) (t w : Nat) : ThrottleState :=
  if t = st.this_second then
    if st.in_second + 1 = rate then
      { this_second := w, in_second := 0 }
    else
      { this_second := st.this_second, in_second := st.in_second + 1 }
  else
    if rate ≠ 0 ∧ rate ≠ st.in_second then
      { this_second := t, in_second := 0 }
    else
      st

/-- A schedule of loop iterations is valid from state `st` when the clock
can actually produce it: `lb` is a lower bound on the next observable
second (time is monotone), and whenever the wait is entered it returns a
strictly later second `w`, which becomes the new lower bound. -/
def validSched (rate : Nat) : ThrottleState → Nat → List (Nat × Nat) → Bool
  | _, _, [] => true
  | st, lb, tw :: rest =>
    decide (lb ≤ tw.1) &&
    (!waitFires rate st tw.1 || decide (tw.1 < tw.2)) &&
    validSched rate (throttleStep rate st tw.1 tw.2)
      (if waitFires rate st tw.1 then tw.2 else tw.1) rest

/-- Number of submissions of a schedule falling in wall-clock second `s`. -/
def countAt (s : Nat) (sched : List (Nat × Nat)) : Nat :=
  sched.countP (fun tw => tw.1 == s)

/-- Model of `wait_for_next_second` (lines 162-165) as a sleep-poll over an
observation clock: starting at poll index `k`, keep polling while the
observed second equals `second`, and return the first differing observed
second.  `fuel` bounds the number of polls so the model stays total;
`none` means the clock never advanced within `fuel` polls. -/
def waitPoll (clock : Nat → Nat) (second : Nat) : Nat → Nat → Option Nat
  | _, 0 => none
  | k, fuel + 1 =>
    if clock k = second then waitPoll clock second (k + 1) fuel
    else some (clock k)

/-! ## `json.dumps` on `send_params` (the verbose print at lines 197-198)

`print(f"Producing {json.dumps(send_params, sort_keys=True)}")` hands the
`send_params` dict to Python's `json` encoder.  The encoder serializes
`str`, `list`/`tuple` and `dict` values and raises
`TypeError: Object of type bytes is not JSON serializable` on `bytes`. -/

/-- The Python values reachable inside `send_params`: strings, bytes,
lists/tuples, and string-keyed dicts. -/
inductive PyVal where
  | pstr (s : String)
  | pbytes (b : List Nat)
  | plist (xs : List PyVal)
  | pdict (kvs : List (String × PyVal))

/-- Insert one key/value pair into a key-sorted association list. -/
def insertSortedKV (kv : String × PyVal) : List (String × PyVal) → List (String × PyVal)
  | [] => [kv]
  | x :: xs => if kv.1 ≤ x.1 then kv :: x :: xs else x :: insertSortedKV kv xs

/-- Sort an association list by key (the effect of `sort_keys=True` on
one dict level). -/
def sortKVs : List (String × PyVal) → List (String × PyVal)
  | [] => []
  | x :: xs => insertSortedKV x (sortKVs xs)

mutual

/-- Recursively sort every dict of a value by key (`sort_keys=True`). -/
def sortDicts : PyVal → PyVal
  | PyVal.pstr s => PyVal.pstr s
  | PyVal.pbytes b => PyVal.pbytes b
  | PyVal.plist xs => PyVal.plist (sortDictsList xs)
  | PyVal.pdict kvs => PyVal.pdict (sortKVs (sortDictsKVs kvs))

/-- The map of `sortDicts` over a list of values. -/
def sortDictsList : List PyVal → List PyVal
  | [] => []
  | x :: xs => sortDicts x :: sortDictsList xs

/-- The map of `sortDicts` over the values of an association list. -/
def sortDictsKVs : List (String × PyVal) → List (String × PyVal)
  | [] => []
  | kv :: kvs => (kv.1, sortDicts kv.2) :: sortDictsKVs kvs

end

/-- JSON escaping of one character inside a string literal. -/
def jsonEscapeChar (c : Char) : String :=
  if c = '"' then "\\\""
  else if c = '\\' then "\\\\"
  else if c = '\n' then "\\n"
  else if c = '\t' then "\\t"
  else if c = '\r' then "\\r"
  else String.singleton c

/-- A JSON string literal for `s`. -/
def jsonQuote (s : String) : String :=
  "\"" ++ String.join (s.data.map jsonEscapeChar) ++ "\""

mutual

/-- Python's `json.dumps` on an (already key-sorted) value: strings become
JSON strings, lists become JSON arrays, dicts become JSON objects, and
`bytes` raise `TypeError` — the default encoder has no case for them. -/
def json_dumps_raw : PyVal → Except String String
  | PyVal.pstr s => Except.ok (jsonQuote s)
  | PyVal.pbytes _ => Except.error "Object of type bytes is not JSON serializable"
  | PyVal.plist xs =>
    match json_dumps_elems xs with
    | Except.error e => Except.error e
    | Except.ok parts => Except.ok ("[" ++ String.intercalate ", " parts ++ "]")
  | PyVal.pdict kvs =>
    match json_dumps_entries kvs with
    | Except.error e => Except.error e
    | Except.ok parts => Except.ok ("\x7b" ++ String.intercalate ", " parts ++ "\x7d")

/-- Serialization of the elements of a JSON array. -/
def json_dumps_elems : List PyVal → Except String (List String)
  | [] => Except.ok []
  | x :: xs =>
    match json_dumps_raw x with
    | Except.error e => Except.error e
    | Except.ok s =>
      match json_dumps_elems xs with
      | Except.error e => Except.error e
      | Except.ok ss => Except.ok (s :: ss)

/-- Serialization of the `"key": value` entries of a JSON object. -/
def json_dumps_entries : List (String × PyVal) → Except String (List String)
  | [] => Except.ok []
  | kv :: kvs =>
    match json_dumps_raw kv.2 with
    | Except.error e => Except.error e
    | Except.ok s =>
      match json_dumps_entries kvs with
      | Except.error e => Except.error e
      | Except.ok ss => Except.ok ((jsonQuote kv.1 ++ ": " ++ s) :: ss)

end

/-- Model of `json.dumps(v, sort_keys=True)`. -/
def json_dumps_sorted (v : PyVal) : Except String String :=
  json_dumps_raw (sortDicts v)

/-- The `send_params` dict as a Python value, in insertion order
(lines 183-194): `value` first, then `key` when present, then `headers`;
each header tuple is a two-element sequence. -/
def sendParamsToPy (sp : SendParams) : PyVal :=
  PyVal.pdict
    ([("value", PyVal.pbytes sp.value)] ++
     (match sp.key with
      | some k => [("key", PyVal.pbytes k)]
      | none => []) ++
     [("headers", PyVal.plist (sp.headers.map (fun hk =>
        PyVal.plist [PyVal.pstr hk.1, PyVal.pbytes hk.2])))])

/-- One iteration of the `work` loop (lines 172-202) including the
verbose print: the message id is resolved, `send_params` is built, and,
when `show_processed_messages` is set, `json.dumps` runs before the send;
an exception there aborts the iteration before `produce_here.send`. -/
def processMessage {A P : Type} (show_processed_messages : Bool) (cfg : Config A P) (args : A)
    (p : String × P) : Except String (String × SendParams) :=
  let mid := resolveId cfg args p.1 p.2
  let sp := buildSendParams cfg args mid p.2
  if show_processed_messages then
    match json_dumps_sorted (sendParamsToPy sp) with
    | Except.error e => Except.error e
    | Except.ok _ => Except.ok (mid, sp)
  else
    Except.ok (mid, sp)

/-- The `work` loop over the whole generator output: the submissions made,
or the uncaught exception that ended the worker. -/
def workRun {A P : Type} (show_processed_messages : Bool) (cfg : Config A P) (args : A) :
    List (String × P) → Except String (List (String × SendParams))
  | [] => Except.ok []
  | p :: rest =>
    match processMessage show_processed_messages cfg args p with
    | Except.error e => Except.error e
    | Except.ok s =>
      match workRun show_processed_messages cfg args rest with
      | Except.error e => Except.error e
      | Except.ok ss => Except.ok (s :: ss)

/-! ## The orchestrator (`post_kafka_times`, lines 335-355)

The `with ThreadPoolExecutor` block submits `W` `produce_thread` tasks,
iterates `concurrent.futures.as_completed` over them — each future is
yielded when its worker terminates and is then inspected by
`future.result()` inside `try/except`, which logs an exception and
continues — and on exit joins any remaining thread.  After the block,
`produce_here.flush()` runs, then `save_here.commit()`.  The embedding
records the observable calls as a trace; `order` is the order in which
the workers happen to terminate, `outcome i` is `true` when worker `i`
raised. -/

/-- Observable orchestrator events. -/
inductive OEvent where
  | workerDone (i : Nat)
  | workerInspected (i : Nat) (raised : Bool)
  | flushCall
  | commitCall
deriving DecidableEq

/-- The events of the `as_completed` loop (lines 342-349): each worker's
termination is immediately followed by the inspection of its result,
worker by worker in completion order; an exception is caught and logged,
the loop continues either way. -/
def inspectEvents (outcome : Nat → Bool) : List Nat → List OEvent
  | [] => []
  | i :: rest =>
    OEvent.workerDone i :: OEvent.workerInspected i (outcome i) :: inspectEvents outcome rest

/-- The full orchestrator trace (lines 335-355): the worker
terminations and inspections, then `produce_here.flush()`, then
`save_here.commit()`. -/
def post_kafka_times_trace (outcome : Nat → Bool) (order : List Nat) : List OEvent :=
  inspectEvents outcome order ++ [OEvent.flushCall, OEvent.commitCall]

/-- The events of a trace that occur strictly before the first
occurrence of `e`. -/
def eventsBefore (trace : List OEvent) (e : OEvent) : List OEvent :=
  trace.takeWhile (fun x => x != e)

/-! ## A concrete sample configuration, used for witnesses and
counterexamples: one generated message `"m1"`, payload `"p"`, key `"k"`,
one header `("h", "v")` (the shape of the documented usage at the top of
the module). -/

/-- A minimal concrete config: the generator yields the single message
id `"m1"`. -/
def sampleConfig : Config Unit Unit where
  func_return_generator := fun _ => [("m1", ())]
  func_return_message_id := none
  func_return_message_payload := fun _ _ _ => "p"
  func_return_message_key := fun _ _ _ => some "k"
  func_return_message_headers := fun _ _ _ => [("h", "v")]

/-! ## Helper lemmas about the ledger -/

/-- Dispatching acknowledgments from any starting ledger appends exactly
the records of the success events, in order. -/
theorem foldl_applyAck (events : List AckEvent) (acc : List (String × Nat)) :
    events.foldl applyAck acc =
      acc ++ (events.filter (fun e => e.2.1 == AckResult.success)).map
        (fun e => (e.1, e.2.2)) := by
  induction events generalizing acc with
  | nil => simp
  | cons e rest ih =>
    obtain ⟨m, r, t⟩ := e
    cases r <;>
      simp [List.foldl_cons, applyAck, handle_send_success, handle_send_error, ih,
        List.filter_cons]

/-- The ledger after a run holds exactly one record per success event, in
dispatch order. -/
theorem ledgerAfter_eq (events : List AckEvent) :
    ledgerAfter events =
      (events.filter (fun e => e.2.1 == AckResult.success)).map (fun e => (e.1, e.2.2)) := by
  simpa using foldl_applyAck events []

/-- In a list of events with pairwise-distinct message ids, the events
matching a given successful event's id reduce to that event alone. -/
theorem filter_eq_single_of_nodup (events : List AckEvent) (m : String) (t : Nat)
    (hN : (events.map (fun e => e.1)).Nodup)
    (hm : (m, AckResult.success, t) ∈ events) :
    events.filter (fun e => e.2.1 == AckResult.success && e.1 == m) =
      [(m, AckResult.success, t)] := by
  induction events with
  | nil => simp at hm
  | cons e rest ih =>
    simp only [List.map_cons, List.nodup_cons] at hN
    rcases List.mem_cons.mp hm with he | hrest
    · subst he
      simp only [List.filter_cons, beq_self_eq_true, Bool.and_self, if_pos]
      simp only [List.cons.injEq, true_and]
      rw [List.filter_eq_nil_iff]
      intro a ha
      have : a.1 ≠ m := fun h => hN.1 (h ▸ List.mem_map_of_mem (fun e => e.1) ha)
      simp [this]
    · have hne : e.1 ≠ m := by
        intro h
        exact hN.1 (h ▸ List.mem_map_of_mem (fun e => e.1) hrest)
      simp only [List.filter_cons]
      rw [if_neg (by simp [hne]), ih hN.2 hrest]

/-- C5: for every acknowledged publish — each success-callback event —
exactly one `DeliveryRecord` with the matching `message_id` and the
`dt_now()` timestamp of the callback is in the ledger, provided ids are
unique across the run's events (the broker fires at most one
acknowledgment per submission, and each submission has a distinct id). -/
theorem ack_success_exactly_one_record (events : List AckEvent) (m : String) (t : Nat)
    (hN : (events.map (fun e => e.1)).Nodup)
    (hm : (m, AckResult.success, t) ∈ events) :
    (ledgerAfter events).filter (fun r => r.1 == m) = [(m, t)] := by
  rw [ledgerAfter_eq]
  have key := filter_eq_single_of_nodup events m t hN hm
  rw [List.filter_map, List.filter_filter]
  have hpred :
      (events.filter (fun e =>
        ((fun r : String × Nat => r.1 == m) ∘ fun e : AckEvent => (e.1, e.2.2)) e &&
          (fun e : AckEvent => e.2.1 == AckResult.success) e)) =
      events.filter (fun e => e.2.1 == AckResult.success && e.1 == m) := by
    apply List.filter_congr
    intro e _
    simp [Function.comp, Bool.and_comm]
  rw [hpred, key]
  simp

/-- Witness for C5 at a concrete run: two submissions, `"a"` acknowledged
at instant 3 and `"b"` failed; the ledger holds exactly one record for
`"a"`, timestamped 3. -/
theorem ack_success_exactly_one_record_witness :
    ((([("a", AckResult.success, 3), ("b", AckResult.error, 0)] : List AckEvent).map
        (fun e => e.1)).Nodup ∧
      (("a", AckResult.success, 3) : AckEvent) ∈
        ([("a", AckResult.success, 3), ("b", AckResult.error, 0)] : List AckEvent)) ∧
    (ledgerAfter [("a", AckResult.success, 3), ("b", AckResult.error, 0)]).filter
      (fun r => r.1 == "a") = [("a", 3)] :=
  ⟨⟨by decide, by decide⟩,
    ack_success_exactly_one_record [("a", AckResult.success, 3), ("b", AckResult.error, 0)]
      "a" 3 (by decide) (by decide)⟩

/-- C4: when the error callback fires for a message (and, ids being
unique, no success event exists for it), no `DeliveryRecord` for that
`message_id` reaches the ledger; the worker makes exactly one submission
per generated message regardless of outcomes (no retry); and
`handle_send_error` only logs — the ledger it returns is the one it was
given. -/
theorem error_callback_drops_message {A P : Type} (events : List AckEvent)
    (cfg : Config A P) (args : A) (gen : List (String × P)) (m : String) (t : Nat)
    (hN : (events.map (fun e => e.1)).Nodup)
    (hm : (m, AckResult.error, t) ∈ events) :
    (∀ r ∈ ledgerAfter events, r.1 ≠ m) ∧
    (submissions cfg args gen).length = gen.length ∧
    (∀ L, handle_send_error L m = L) := by
  refine ⟨?_, by simp [submissions], fun L => rfl⟩
  intro r hr
  rw [ledgerAfter_eq] at hr
  simp only [List.mem_map, List.mem_filter] at hr
  obtain ⟨e, ⟨hemem, hesucc⟩, rfl⟩ := hr
  intro hid
  have heq : e = (m, AckResult.error, t) :=
    List.inj_on_of_nodup_map hN hemem hm hid
  rw [heq] at hesucc
  simp at hesucc

/-- Witness for C4 at a concrete run: `"a"` errored at instant 0; the
ledger holds no record with id `"a"`, the single generated message yields
a single submission, and the error handler leaves any ledger unchanged. -/
theorem error_callback_drops_message_witness :
    ((([("a", AckResult.error, 0)] : List AckEvent).map (fun e => e.1)).Nodup ∧
      (("a", AckResult.error, 0) : AckEvent) ∈ ([("a", AckResult.error, 0)] : List AckEvent)) ∧
    ((∀ r ∈ ledgerAfter [("a", AckResult.error, 0)], r.1 ≠ "a") ∧
      (submissions sampleConfig () [("m1", ())]).length = [("m1", ())].length ∧
      (∀ L, handle_send_error L "a" = L)) :=
  ⟨⟨by decide, by decide⟩,
    error_callback_drops_message [("a", AckResult.error, 0)] sampleConfig () [("m1", ())]
      "a" 0 (by decide) (by decide)⟩

/-- C7: every wire message a worker submits has `value` equal to the
UTF-8 encoding of the payload hook's result, carries a `key` exactly when
the key hook returns non-`None` (and then its UTF-8 encoding), and has as
headers exactly the header hook's list, order and names preserved, values
UTF-8 encoded — all hooks applied at the resolved message id. -/
theorem wire_message_fields {A P : Type} (cfg : Config A P) (args : A)
    (gen : List (String × P)) :
    ∀ s ∈ submissions cfg args gen, ∃ p ∈ gen,
      s.1 = resolveId cfg args p.1 p.2 ∧
      s.2.value = utf8Encode (cfg.func_return_message_payload args s.1 p.2) ∧
      (s.2.key.isSome ↔ (cfg.func_return_message_key args s.1 p.2).isSome) ∧
      s.2.key = (cfg.func_return_message_key args s.1 p.2).map utf8Encode ∧
      s.2.headers = (cfg.func_return_message_headers args s.1 p.2).map
        (fun hk => (hk.1, utf8Encode hk.2)) := by
  intro s hs
  simp only [submissions, List.mem_map] at hs
  obtain ⟨p, hp, rfl⟩ := hs
  exact ⟨p, hp, rfl, rfl, by simp [buildSendParams], rfl, rfl⟩

/-- Witness for C7 at the sample config's single submission. -/
theorem wire_message_fields_witness :
    (("m1", buildSendParams sampleConfig () "m1" ()) ∈
        submissions sampleConfig () [("m1", ())]) ∧
    ∃ p ∈ [("m1", ())],
      ("m1", buildSendParams sampleConfig () "m1" ()).1 = resolveId sampleConfig () p.1 p.2 ∧
      ("m1", buildSendParams sampleConfig () "m1" ()).2.value =
        utf8Encode (sampleConfig.func_return_message_payload ()
          ("m1", buildSendParams sampleConfig () "m1" ()).1 p.2) ∧
      (("m1", buildSendParams sampleConfig () "m1" ()).2.key.isSome ↔
        (sampleConfig.func_return_message_key ()
          ("m1", buildSendParams sampleConfig () "m1" ()).1 p.2).isSome) ∧
      ("m1", buildSendParams sampleConfig () "m1" ()).2.key =
        (sampleConfig.func_return_message_key ()
          ("m1", buildSendParams sampleConfig () "m1" ()).1 p.2).map utf8Encode ∧
      ("m1", buildSendParams sampleConfig () "m1" ()).2.headers =
        (sampleConfig.func_return_message_headers ()
          ("m1", buildSendParams sampleConfig () "m1" ()).1 p.2).map
          (fun hk => (hk.1, utf8Encode hk.2)) :=
  ⟨by decide,
    wire_message_fields sampleConfig () [("m1", ())]
      ("m1", buildSendParams sampleConfig () "m1" ()) (by decide)⟩

/-- C1: counterexample — with `W = 2` workers and a generator yielding the
single id `"m1"` (`N = 1`), the run submits 2 messages, `"m1"` twice, not
`N = 1` messages once each: `produce_thread` builds one `PostKafkaTimes`
per thread and `__init__` calls `func_return_generator(args)` anew, so
the workers do not share one message source. -/
theorem shared_source_claim_false :
    (sampleConfig.func_return_generator ()).length = 1 ∧
    (allSubmissions 2 sampleConfig ()).length = 2 ∧
    (allSubmissions 2 sampleConfig ()).countP (fun x => x.1 == "m1") = 2 ∧
    ¬ (allSubmissions 2 sampleConfig ()).length =
        (sampleConfig.func_return_generator ()).length := by
  refine ⟨by decide, by decide, by decide, ?_⟩
  intro h
  rw [show (sampleConfig.func_return_generator ()).length = 1 by decide] at h
  rw [show (allSubmissions 2 sampleConfig ()).length = 2 by decide] at h
  simp at h

/-- C1 (amended): each of the `W` workers constructs and fully drains its
own generator built from the same `args`, so a run performs
`W * N` submissions in total, and each message id is submitted `W` times
as often as the generator yields it (hence exactly `W` times for a unique
id) — not once. -/
theorem all_submissions_per_worker {A P : Type} (W : Nat) (cfg : Config A P) (args : A)
    (m : String) :
    (allSubmissions W cfg args).length = W * (cfg.func_return_generator args).length ∧
    (allSubmissions W cfg args).countP (fun x => x.1 == m) =
      W * ((cfg.func_return_generator args).countP
        (fun p => resolveId cfg args p.1 p.2 == m)) := by
  induction W with
  | zero => simp [allSubmissions]
  | succ W ih =>
    refine ⟨?_, ?_⟩
    · simp only [allSubmissions, List.length_append, ih.1, produce_thread, submissions,
        List.length_map]
      ring
    · simp only [allSubmissions, List.countP_append, ih.2, produce_thread, submissions,
        List.countP_map]
      have : ((cfg.func_return_generator args).countP
          (((fun x : String × SendParams => x.1 == m)) ∘ fun p =>
            (resolveId cfg args p.1 p.2,
              buildSendParams cfg args (resolveId cfg args p.1 p.2) p.2))) =
          (cfg.func_return_generator args).countP
            (fun p => resolveId cfg args p.1 p.2 == m) := by
        apply List.countP_congr
        intro p _
        simp [Function.comp]
      rw [this]
      ring

/-- C6: evaluation at the failing input — with `show_processed_messages`
set, the very first message raises
`TypeError: Object of type bytes is not JSON serializable` inside
`json.dumps(send_params, sort_keys=True)` (every `send_params` carries a
`bytes` `value`), the worker aborts before `produce_here.send`, so
nothing is submitted; the identical run with the flag unset submits the
message normally.  The print is not harmless: the claim fails on the
code. -/
theorem show_messages_print_raises :
    workRun true sampleConfig () [("m1", ())] =
      Except.error "Object of type bytes is not JSON serializable" ∧
    workRun false sampleConfig () [("m1", ())] =
      Except.ok (submissions sampleConfig () [("m1", ())]) ∧
    submissions sampleConfig () [("m1", ())] ≠ [] := by
  refine ⟨?_, by simp [workRun, processMessage, submissions], by decide⟩
  simp [workRun, processMessage, json_dumps_sorted, sortDicts, sendParamsToPy,
    buildSendParams, resolveId, sampleConfig, sortDictsKVs, sortKVs, insertSortedKV,
    json_dumps_raw, json_dumps_entries, json_dumps_elems, sortDictsList]

/-- C8: with target rate `R = 0` the throttle never blocks: the
`wait_for_next_second` branch of the post-send check can never be taken
(the incremented counter is never `0`), and consequently the throttle
update does not depend on any wait-return instant — no throttle-induced
delay separates consecutive submissions. -/
theorem rate_zero_no_wait (st : ThrottleState) (t w w' : Nat) :
    waitFires 0 st t = false ∧ throttleStep 0 st t w = throttleStep 0 st t w' := by
  constructor
  · simp [waitFires]
  · simp [throttleStep]

/-! ## Helper lemmas about orchestrator traces -/

/-- The function `eventsBefore` passes over a prefix not containing the cut event. -/
theorem eventsBefore_append_of_not_mem (A B : List OEvent) (e : OEvent) (h : e ∉ A) :
    eventsBefore (A ++ B) e = A ++ eventsBefore B e := by
  induction A with
  | nil => simp
  | cons a A ih =>
    have hne : a ≠ e := fun hae => h (hae ▸ List.mem_cons_self a A)
    have hmem : e ∉ A := fun hm => h (List.mem_cons_of_mem a hm)
    simp only [List.cons_append, eventsBefore, List.takeWhile_cons, bne_iff_ne, ne_eq, hne,
      not_false_eq_true, decide_True, ite_true]
    simpa [eventsBefore] using ih hmem

/-- The function `eventsBefore` is settled inside a prefix containing the cut event. -/
theorem eventsBefore_append_of_mem (A B : List OEvent) (e : OEvent) (h : e ∈ A) :
    eventsBefore (A ++ B) e = eventsBefore A e := by
  induction A with
  | nil => simp at h
  | cons a A ih =>
    by_cases hae : a = e
    · subst hae
      simp [eventsBefore, List.takeWhile_cons]
    · have hmem : e ∈ A := by
        rcases List.mem_cons.mp h with h' | h'
        · exact absurd h'.symm hae
        · exact h'
      simp only [List.cons_append, eventsBefore, List.takeWhile_cons, bne_iff_ne, ne_eq, hae,
        not_false_eq_true, decide_True, ite_true]
      simpa [eventsBefore] using ih hmem

/-- Every event of the `as_completed` loop is a termination or an
inspection. -/
theorem mem_inspectEvents_shape (outcome : Nat → Bool) (order : List Nat) (e : OEvent)
    (h : e ∈ inspectEvents outcome order) :
    (∃ i, e = OEvent.workerDone i) ∨ (∃ i b, e = OEvent.workerInspected i b) := by
  induction order with
  | nil => simp [inspectEvents] at h
  | cons j rest ih =>
    simp only [inspectEvents, List.mem_cons] at h
    rcases h with h | h | h
    · exact Or.inl ⟨j, h⟩
    · exact Or.inr ⟨j, outcome j, h⟩
    · exact ih h

/-- The event `flush` does not occur inside the `as_completed` loop. -/
theorem flush_not_mem_inspectEvents (outcome : Nat → Bool) (order : List Nat) :
    OEvent.flushCall ∉ inspectEvents outcome order := by
  intro h
  rcases mem_inspectEvents_shape outcome order _ h with ⟨i, hi⟩ | ⟨i, b, hi⟩ <;> cases hi

/-- The event `commit` does not occur inside the `as_completed` loop. -/
theorem commit_not_mem_inspectEvents (outcome : Nat → Bool) (order : List Nat) :
    OEvent.commitCall ∉ inspectEvents outcome order := by
  intro h
  rcases mem_inspectEvents_shape outcome order _ h with ⟨i, hi⟩ | ⟨i, b, hi⟩ <;> cases hi

/-- A worker that completes has its termination event in the loop. -/
theorem workerDone_mem_inspectEvents (outcome : Nat → Bool) (order : List Nat) (i : Nat)
    (h : i ∈ order) : OEvent.workerDone i ∈ inspectEvents outcome order := by
  induction order with
  | nil => simp at h
  | cons j rest ih =>
    rcases List.mem_cons.mp h with h' | h'
    · subst h'
      simp [inspectEvents]
    · simp only [inspectEvents, List.mem_cons]
      exact Or.inr (Or.inr (ih h'))

/-- A worker that completes has its inspection event in the loop. -/
theorem workerInspected_mem_inspectEvents (outcome : Nat → Bool) (order : List Nat) (i : Nat)
    (h : i ∈ order) :
    OEvent.workerInspected i (outcome i) ∈ inspectEvents outcome order := by
  induction order with
  | nil => simp at h
  | cons j rest ih =>
    rcases List.mem_cons.mp h with h' | h'
    · subst h'
      simp [inspectEvents]
    · simp only [inspectEvents, List.mem_cons]
      exact Or.inr (Or.inr (ih h'))

/-- A worker's termination precedes the first inspection of its own
result inside the `as_completed` loop. -/
theorem workerDone_before_inspected (outcome : Nat → Bool) (order : List Nat) (i : Nat)
    (h : i ∈ order) :
    OEvent.workerDone i ∈
      eventsBefore (inspectEvents outcome order) (OEvent.workerInspected i (outcome i)) := by
  induction order with
  | nil => simp at h
  | cons j rest ih =>
    by_cases hij : i = j
    · subst hij
      simp [inspectEvents, eventsBefore, List.takeWhile_cons]
    · have h' : i ∈ rest := by
        rcases List.mem_cons.mp h with h' | h'
        · exact absurd h' hij
        · exact h'
      have hblock :
          OEvent.workerInspected i (outcome i) ∉
            [OEvent.workerDone j, OEvent.workerInspected j (outcome j)] := by
        intro hmem
        rcases List.mem_cons.mp hmem with hc | hc
        · cases hc
        · rcases List.mem_cons.mp hc with hc' | hc'
          · cases hc'
            exact hij rfl
          · simp at hc'
      have : inspectEvents outcome (j :: rest) =
          [OEvent.workerDone j, OEvent.workerInspected j (outcome j)] ++
            inspectEvents outcome rest := by
        simp [inspectEvents]
      rw [this, eventsBefore_append_of_not_mem _ _ _ hblock]
      exact List.mem_append_right _ (ih h')

/-- C3: in every run, all worker terminations are observed before
`produce_here.flush()` is called, and `flush()` returns before
`save_here.commit()` is called — the straight-line tail of
`post_kafka_times` orders join-all, then flush, then commit. -/
theorem flush_before_commit_after_joins (W : Nat) (outcome : Nat → Bool) (order : List Nat)
    (hall : ∀ i, i < W → i ∈ order) :
    (∀ i, i < W → OEvent.workerDone i ∈
        eventsBefore (post_kafka_times_trace outcome order) OEvent.flushCall) ∧
    OEvent.flushCall ∈
      eventsBefore (post_kafka_times_trace outcome order) OEvent.commitCall := by
  constructor
  · intro i hi
    rw [post_kafka_times_trace,
      eventsBefore_append_of_not_mem _ _ _ (flush_not_mem_inspectEvents outcome order)]
    exact List.mem_append_left _ (workerDone_mem_inspectEvents outcome order i (hall i hi))
  · rw [post_kafka_times_trace,
      eventsBefore_append_of_not_mem _ _ _ (commit_not_mem_inspectEvents outcome order)]
    refine List.mem_append_right _ ?_
    simp [eventsBefore, List.takeWhile_cons]

/-- Witness for C3: two workers completing in the order 1, 0, neither
raising. -/
theorem flush_before_commit_after_joins_witness :
    (∀ i, i < 2 → i ∈ [1, 0]) ∧
    ((∀ i, i < 2 → OEvent.workerDone i ∈
        eventsBefore (post_kafka_times_trace (fun _ => false) [1, 0]) OEvent.flushCall) ∧
      OEvent.flushCall ∈
        eventsBefore (post_kafka_times_trace (fun _ => false) [1, 0]) OEvent.commitCall) :=
  ⟨by decide, flush_before_commit_after_joins 2 (fun _ => false) [1, 0] (by decide)⟩

/-- C9: counterexample — with `W = 2`, worker 0 finishing first and
raising, `as_completed` yields and inspects worker 0's result strictly
before worker 1 terminates (worker 1's termination event does appear
later in the trace): inspection is per-completion, not deferred until all
workers have terminated. -/
theorem inspect_after_all_terminated_claim_false :
    OEvent.workerInspected 0 true ∈
      eventsBefore (post_kafka_times_trace (fun i => i == 0) [0, 1])
        (OEvent.workerDone 1) ∧
    OEvent.workerDone 1 ∈ post_kafka_times_trace (fun i => i == 0) [0, 1] := by
  constructor <;> decide

/-- C9 (amended): an exception in a worker is caught and logged by the
inspection that follows that worker's own termination, in completion
order; it neither removes any sibling's termination or inspection from
the run nor stops the run, which still reaches `flush()` and then
`commit()` — for every outcome assignment, including failing ones. -/
theorem worker_failure_isolation (W : Nat) (outcome : Nat → Bool) (order : List Nat)
    (hall : ∀ i, i < W → i ∈ order) (i : Nat) (hi : i < W) :
    OEvent.workerDone i ∈
      eventsBefore (post_kafka_times_trace outcome order)
        (OEvent.workerInspected i (outcome i)) ∧
    (∀ j, j < W → OEvent.workerDone j ∈
        eventsBefore (post_kafka_times_trace outcome order) OEvent.flushCall ∧
      OEvent.workerInspected j (outcome j) ∈
        eventsBefore (post_kafka_times_trace outcome order) OEvent.flushCall) ∧
    OEvent.flushCall ∈
      eventsBefore (post_kafka_times_trace outcome order) OEvent.commitCall := by
  refine ⟨?_, ?_, ?_⟩
  · rw [post_kafka_times_trace,
      eventsBefore_append_of_mem _ _ _
        (workerInspected_mem_inspectEvents outcome order i (hall i hi))]
    exact workerDone_before_inspected outcome order i (hall i hi)
  · intro j hj
    rw [post_kafka_times_trace,
      eventsBefore_append_of_not_mem _ _ _ (flush_not_mem_inspectEvents outcome order)]
    exact ⟨List.mem_append_left _ (workerDone_mem_inspectEvents outcome order j (hall j hj)),
      List.mem_append_left _ (workerInspected_mem_inspectEvents outcome order j (hall j hj))⟩
  · rw [post_kafka_times_trace,
      eventsBefore_append_of_not_mem _ _ _ (commit_not_mem_inspectEvents outcome order)]
    refine List.mem_append_right _ ?_
    simp [eventsBefore, List.takeWhile_cons]

/-- Witness for C9 (amended): two workers, worker 0 raising and finishing
first. -/
theorem worker_failure_isolation_witness :
    ((∀ i, i < 2 → i ∈ [0, 1]) ∧ 0 < 2) ∧
    (OEvent.workerDone 0 ∈
      eventsBefore (post_kafka_times_trace (fun i => i == 0) [0, 1])
        (OEvent.workerInspected 0 ((fun i : Nat => i == 0) 0)) ∧
    (∀ j, j < 2 → OEvent.workerDone j ∈
        eventsBefore (post_kafka_times_trace (fun i => i == 0) [0, 1]) OEvent.flushCall ∧
      OEvent.workerInspected j ((fun i : Nat => i == 0) j) ∈
        eventsBefore (post_kafka_times_trace (fun i => i == 0) [0, 1]) OEvent.flushCall) ∧
    OEvent.flushCall ∈
      eventsBefore (post_kafka_times_trace (fun i => i == 0) [0, 1]) OEvent.commitCall) :=
  ⟨⟨by decide, by decide⟩,
    worker_failure_isolation 2 (fun i => i == 0) [0, 1] (by decide) 0 (by decide)⟩

/-! ## Helper lemmas for the throttle bound -/

/-- Bound, from a throttle state and clock lower bound, on how many more
submissions can still fall in wall-clock second `s`: none once the clock
has passed `s`; the remaining budget of the window while it is the
tracked second; and one uncounted boundary submission plus a full budget
otherwise. -/
def cBound (rate s : Nat) (st : ThrottleState) (lb : Nat) : Nat :=
  if s < lb then 0
  else if st.this_second = s then rate - st.in_second
  else rate + 1

/-- The bound never exceeds `rate + 1`. -/
theorem cBound_le (rate s : Nat) (st : ThrottleState) (lb : Nat) :
    cBound rate s st lb ≤ rate + 1 := by
  simp only [cBound]
  split_ifs <;> omega

/-- Along any valid schedule from a state whose window is not full and
whose tracked second is no later than the clock, the number of
submissions falling in second `s` is bounded by `cBound`. -/
theorem countAt_le_cBound (rate s : Nat) (hr : 1 ≤ rate) :
    ∀ (sched : List (Nat × Nat)) (st : ThrottleState) (lb : Nat),
      validSched rate st lb sched = true →
      st.in_second < rate → st.this_second ≤ lb →
      countAt s sched ≤ cBound rate s st lb := by
  intro sched
  induction sched with
  | nil =>
    intro st lb _ _ _
    simp only [countAt, List.countP_nil]
    exact Nat.zero_le _
  | cons tw rest ih =>
    obtain ⟨t, w⟩ := tw
    intro st lb hv hin hts
    simp only [validSched, Bool.and_eq_true, decide_eq_true_eq, Bool.or_eq_true,
      Bool.not_eq_true'] at hv
    obtain ⟨⟨hlb, hw⟩, hrest⟩ := hv
    simp only [countAt, List.countP_cons] at *
    by_cases h1 : t = st.this_second
    · by_cases h2 : st.in_second + 1 = rate
      · -- the wait branch: the window filled, the worker blocks until `w`
        have hwf : waitFires rate st t = true := by
          simp [waitFires, h1, h2]
        have htw : t < w := by
          rcases hw with hfalse | hlt
          · rw [hwf] at hfalse; cases hfalse
          · exact hlt
        rw [hwf] at hrest
        have hstep : throttleStep rate st t w = ⟨w, 0⟩ := by
          simp [throttleStep, h1, h2]
        rw [hstep] at hrest
        simp only [if_true] at hrest
        have hrec := ih ⟨w, 0⟩ w hrest (by show 0 < rate; omega) (le_refl w)
        simp only [cBound] at hrec ⊢
        dsimp only at hrec ⊢
        simp only [beq_iff_eq]
        split_ifs at hrec ⊢ <;> omega
      · -- same second, window not yet full: count one more
        have hwf : waitFires rate st t = false := by
          simp [waitFires, h2]
        rw [hwf] at hrest
        have hstep : throttleStep rate st t w =
            ⟨st.this_second, st.in_second + 1⟩ := by
          simp [throttleStep, h1, h2]
        rw [hstep] at hrest
        simp only [Bool.false_eq_true, if_false] at hrest
        have hrec := ih ⟨st.this_second, st.in_second + 1⟩ t hrest
          (by show st.in_second + 1 < rate; omega) (by show st.this_second ≤ t; omega)
        simp only [cBound] at hrec ⊢
        dsimp only at hrec ⊢
        simp only [beq_iff_eq]
        split_ifs at hrec ⊢ <;> omega
    · -- a new second was observed: the window is reset uncounted
      have hwf : waitFires rate st t = false := by
        simp [waitFires, h1]
      rw [hwf] at hrest
      have hstep : throttleStep rate st t w = ⟨t, 0⟩ := by
        rw [throttleStep, if_neg (fun h => h1 h), if_pos ⟨by omega, by omega⟩]
      rw [hstep] at hrest
      simp only [Bool.false_eq_true, if_false] at hrest
      have hrec := ih ⟨t, 0⟩ t hrest (by show 0 < rate; omega) (le_refl t)
      simp only [cBound] at hrec ⊢
      dsimp only at hrec ⊢
      simp only [beq_iff_eq]
      split_ifs at hrec ⊢ <;> omega

/-- C2: counterexample — with target rate `R = 2` and one worker, a valid
schedule exists in which three submissions fall in the full wall-clock
second 6: the tracked second is still 5 when the first submission's check
observes second 6, so that submission only resets the window (lines
210-216) without being counted, and two more counted submissions follow
before the wait fires.  The claimed per-full-second bound `R` is
exceeded. -/
theorem rate_window_claim_false :
    ¬ (∀ (rate s0 s : Nat) (sched : List (Nat × Nat)), 1 ≤ rate →
        validSched rate ⟨s0, 0⟩ s0 sched = true → countAt s sched ≤ rate) := by
  intro h
  have hb := h 2 5 6 [(6, 0), (6, 0), (6, 7)] (by decide) (by decide)
  have hc : countAt 6 [(6, 0), (6, 0), (6, 7)] = 3 := by decide
  omega

/-- C2 (amended): for target rate `R ≥ 1` and a single worker, at most
`R + 1` submissions fall within any full wall-clock-second window along
any valid schedule: the window counter `in_second` never exceeds `R` by
the worker's own action, and at most one additional uncounted submission
can land in a window that the throttle entered late (via the reset of
lines 210-216) rather than via its own wait. -/
theorem rate_window_bound (rate s s0 : Nat) (sched : List (Nat × Nat)) (hr : 1 ≤ rate)
    (hv : validSched rate ⟨s0, 0⟩ s0 sched = true) :
    countAt s sched ≤ rate + 1 :=
  le_trans
    (countAt_le_cBound rate s hr sched ⟨s0, 0⟩ s0 hv (by show 0 < rate; omega) (le_refl s0))
    (cBound_le rate s ⟨s0, 0⟩ s0)

/-- Witness for C2 (amended): rate 1, one submission in second 0, the
wait returning at second 1. -/
theorem rate_window_bound_witness :
    (1 ≤ 1 ∧ validSched 1 ⟨0, 0⟩ 0 [(0, 1)] = true) ∧ countAt 0 [(0, 1)] ≤ 1 + 1 :=
  ⟨⟨by decide, by decide⟩, rate_window_bound 1 0 0 [(0, 1)] (by decide) (by decide)⟩

/-- The sample observation clock for the C10 witness: it advances from
second 5 to second 6 after the first poll. -/
def sampleClock (n : Nat) : Nat :=
  5 + min n 1

/-- C10: for every rate setting — the initial `wait_for_next_second()` at
line 170 runs before the loop unconditionally — `work()` blocks until
the observed integer second differs from (and, the clock being monotone,
exceeds) the second captured when `work()` began (the default-argument
second of line 162), so the first submission of any subsequently valid
schedule occurs strictly after the starting second. -/
theorem initial_wait_skips_start_second (clock : Nat → Nat)
    (hmono : ∀ i j, i ≤ j → clock i ≤ clock j) (fuel k s1 : Nat)
    (h : waitPoll clock (clock 0) k fuel = some s1) :
    clock 0 < s1 ∧
    ∀ (rate t w : Nat) (rest : List (Nat × Nat)),
      validSched rate ⟨s1, 0⟩ s1 ((t, w) :: rest) = true → clock 0 < t := by
  have hlt : clock 0 < s1 := by
    induction fuel generalizing k with
    | zero => cases h
    | succ fuel ih =>
      rw [waitPoll] at h
      by_cases hk : clock k = clock 0
      · rw [if_pos hk] at h
        exact ih (k + 1) h
      · rw [if_neg hk] at h
        have hks : s1 = clock k := by
          cases h
          rfl
        have hge : clock 0 ≤ clock k := hmono 0 k (Nat.zero_le k)
        omega
  refine ⟨hlt, ?_⟩
  intro rate t w rest hv
  simp only [validSched, Bool.and_eq_true, decide_eq_true_eq] at hv
  have hst : s1 ≤ t := hv.1.1
  omega

/-- Witness for C10: with `sampleClock`, `work()` starting in second 5
polls once and resumes with second 6, past the starting second. -/
theorem initial_wait_skips_start_second_witness :
    waitPoll sampleClock (sampleClock 0) 0 2 = some 6 ∧ sampleClock 0 < 6 :=
  ⟨by decide,
    (initial_wait_skips_start_second sampleClock
      (fun i j hij => by simp only [sampleClock]; omega) 2 0 6 (by decide)).1⟩

end OPL
